import Mathlib

/-!
Shallow embedding of the audio feature-extraction and animation-state core of
the Local-Visualizer repository (src/app.js, src/visualizers/aurora2d.js,
src/visualizers/aurora.js, src/unnamed/part_001, src/unnamed/part_002).

JavaScript numbers are modelled by exact rationals or reals; a JS NaN is
modelled by `none` in `Option`.  Byte-valued analyser frames are `List ℕ`
with entries in [0, 255].
-/

namespace LocalVisualizer

/-- Linear interpolation `a + (b - a) * t`, the `lerp` helper of
`AuroraOrbit2DVisualizer._updateAudioStats` (aurora2d.js line 135). -/
def lerp (a b t : ℝ) : ℝ := a + (b - a) * t

/-- JavaScript `x % 1.0`: the remainder has the sign of the dividend, so for
nonnegative `x` it is `x - ⌊x⌋` and for negative `x` it is `x - ⌈x⌉`. -/
def jsMod1 (x : ℚ) : ℚ := if 0 ≤ x then x - ⌊x⌋ else x - ⌈x⌉

/-- One decay step of the beat pulse in `AuroraOrbitVisualizer.update`
(src/unnamed/part_002 line 1735): `peakPulse = Math.max(0, peakPulse - dt * 1.5)`. -/
def peakPulseDecay (dt p : ℚ) : ℚ := max 0 (p - dt * (3/2))

/-- The pulse value after applying the decay step once per frame for the
time deltas `dts`, starting from pulse value `p`. -/
def decaySeq (dts : List ℚ) (p : ℚ) : ℚ := dts.foldl (fun q d => peakPulseDecay d q) p

/-- Spark-seed advance of `AuroraOrbit2DVisualizer.update` (aurora2d.js
lines 255-256): `seed = (seed + dt * (0.05 + highs * 0.6)) % 1.0`. -/
def sparkSeedStep (seed dt highs : ℚ) : ℚ := jsMod1 (seed + dt * (1/20 + highs * (3/5)))

/-- Hue advance of `AuroraOrbit2DVisualizer.update` (aurora2d.js line 220):
`lastHue = (lastHue + energy * 0.03 * dt) % 1.0`. -/
def lastHueStep (hue energy dt : ℚ) : ℚ := jsMod1 (hue + energy * (3/100) * dt)

/-- Inner-phase advance of the second `AuroraOrbit2DVisualizer.update`
(aurora2d.js line 574): `innerPhase = (innerPhase + dt * (0.2 + highs * 0.3)) % 1.0`. -/
def innerPhaseStep (phase dt highs : ℚ) : ℚ := jsMod1 (phase + dt * (1/5 + highs * (3/10)))

/-- Hue uniform advance of `AuroraOrbitVisualizer.update` (aurora.js line 750):
`uHue.value = (uHue.value + energy * 0.05 * dt) % 1.0`. -/
def uHueStep (hue energy dt : ℚ) : ℚ := jsMod1 (hue + energy * (1/20) * dt)

/-- Hue-shift advance of `AuroraOrbitVisualizer.update` (src/unnamed/part_002
lines 1707-1708): `hueShift += dt * (0.18 + energy * 3.2)` — note: no wrap. -/
def hueShiftStep (hs dt energy : ℚ) : ℚ := hs + dt * (9/50 + energy * (16/5))

/-- Iterated spark-seed advance over a list of per-frame `(dt, highs)` pairs. -/
def sparkSeedRun (steps : List (ℚ × ℚ)) (seed : ℚ) : ℚ :=
  steps.foldl (fun s p => sparkSeedStep s p.1 p.2) seed

/-! ### Quality presets (aurora2d.js `setQuality`, lines 39-54) -/

/-- State of `AuroraOrbit2DVisualizer` touched by `setQuality`: the quality
name, the settings record (`bars`, `glow`, `sparkCount`, each `none` when the
installed settings object lacks the field, i.e. the JS value is `undefined`),
the per-bar value array, the spark-seed array and the cached band map. -/
structure Vis2DState where
  quality : String
  settingsBars : Option ℕ
  settingsGlow : Option ℕ
  settingsSparkCount : Option ℕ
  barValues : List ℝ
  sparkSeeds : List ℝ
  bandMap : Option (List (ℤ × ℤ))

/-- Result of the JS property read `presets[level]` on the object literal of
`AuroraOrbit2DVisualizer.setQuality` (aurora2d.js lines 40-44): an own
property yields the preset record; a name of an `Object.prototype` member
(`constructor`, `toString`, `__proto__`, ...) yields that inherited member,
a truthy non-preset value; anything else yields `undefined` (falsy). -/
inductive JsLookup where
  | preset (bars glow sparkCount : ℕ)
  | inherited
  | missing

/-- The lookup `presets[level]` of `AuroraOrbit2DVisualizer.setQuality`
(aurora2d.js lines 40-45), including the prototype chain of an object
literal: every string-keyed member of the browser `Object.prototype` is a
function (or, for `__proto__`, an object), hence truthy. -/
def presets (level : String) : JsLookup :=
  if level = "high" then .preset 48 28 220
  else if level = "medium" then .preset 48 22 160
  else if level = "low" then .preset 40 18 110
  else if level = "constructor" ∨ level = "hasOwnProperty" ∨ level = "isPrototypeOf" ∨
      level = "propertyIsEnumerable" ∨ level = "toLocaleString" ∨ level = "toString" ∨
      level = "valueOf" ∨ level = "__proto__" ∨ level = "__defineGetter__" ∨
      level = "__defineSetter__" ∨ level = "__lookupGetter__" ∨ level = "__lookupSetter__"
    then .inherited
  else .missing

/-- `AuroraOrbit2DVisualizer.setQuality` (aurora2d.js lines 39-54).  A level
whose lookup is falsy (`undefined`) returns early; a preset installs its
record, reallocates `barValues` (zero-filled) and `sparkSeeds` (filled from
the random source `rnd`), and clears the cached band map.  A truthy
inherited `Object.prototype` member also passes the `!presets[level]` guard:
`settings` becomes that member (its `bars`/`sparkCount` read as `undefined`),
`new Float32Array(undefined)` allocates empty arrays, and the band map is
cleared. -/
def setQuality (level : String) (rnd : ℕ → ℝ) (s : Vis2DState) : Vis2DState :=
  match presets level with
  | .missing => s
  | .preset b g c =>
      { quality := level, settingsBars := some b, settingsGlow := some g,
        settingsSparkCount := some c,
        barValues := List.replicate b 0,
        sparkSeeds := (List.range c).map rnd,
        bandMap := none }
  | .inherited =>
      { quality := level, settingsBars := none, settingsGlow := none,
        settingsSparkCount := none,
        barValues := [], sparkSeeds := [],
        bandMap := none }

/-! ### Feature extraction (aurora2d.js `_updateAudioStats`, lines 131-179) -/

/-- Indices of frequency bins classified as bass: `i * binHz ≤ 200` where
`binHz = (sampleRate/2) / freq.length` (aurora2d.js lines 137, 146-149). -/
def bassIdx (sr : ℚ) (len : ℕ) : List ℕ :=
  (List.range len).filter fun i => decide ((i : ℚ) * ((sr / 2) / len) ≤ 200)

/-- Indices classified as mids: not bass and `i * binHz ≤ 2000`
(aurora2d.js lines 150-152). -/
def midsIdx (sr : ℚ) (len : ℕ) : List ℕ :=
  (List.range len).filter fun i =>
    decide (200 < (i : ℚ) * ((sr / 2) / len) ∧ (i : ℚ) * ((sr / 2) / len) ≤ 2000)

/-- Indices classified as highs: not bass or mids and `i * binHz ≤ 16000`
(aurora2d.js lines 153-155). -/
def highsIdx (sr : ℚ) (len : ℕ) : List ℕ :=
  (List.range len).filter fun i =>
    decide (2000 < (i : ℚ) * ((sr / 2) / len) ∧ (i : ℚ) * ((sr / 2) / len) ≤ 16000)

/-- Sum of normalised bin values `freq[i] / 255` over the given index list. -/
def vSum (freq : List ℕ) (idx : List ℕ) : ℚ :=
  (idx.map fun i => (freq.getD i 0 : ℚ) / 255).sum

/-- The instantaneous bass target `bassCount ? bassSum / bassCount : 0`
(aurora2d.js line 167). -/
def bassTarget (sr : ℚ) (freq : List ℕ) : ℚ :=
  if (bassIdx sr freq.length).length = 0 then 0
  else vSum freq (bassIdx sr freq.length) / (bassIdx sr freq.length).length

/-- The instantaneous mids target (aurora2d.js line 168). -/
def midsTarget (sr : ℚ) (freq : List ℕ) : ℚ :=
  if (midsIdx sr freq.length).length = 0 then 0
  else vSum freq (midsIdx sr freq.length) / (midsIdx sr freq.length).length

/-- The instantaneous highs target (aurora2d.js line 169). -/
def highsTarget (sr : ℚ) (freq : List ℕ) : ℚ :=
  if (highsIdx sr freq.length).length = 0 then 0
  else vSum freq (highsIdx sr freq.length) / (highsIdx sr freq.length).length

/-- Mean square of the centred waveform, `Σ ((w-128)/128)² / wave.length`
(aurora2d.js lines 158-163).  The division is unguarded in the source, so an
empty waveform yields `0/0`, a JS NaN, modelled by `none`. -/
def rmsSq (wave : List ℕ) : Option ℚ :=
  if wave = [] then none
  else some ((wave.map (fun w : ℕ => (((w : ℚ) - 128) / 128) ^ 2)).sum / wave.length)

/-- The instantaneous energy target `min(1, Math.sqrt(meanSquare))`
(aurora2d.js lines 163-165); NaN propagates. -/
noncomputable def energyTargetR (wave : List ℕ) : Option ℝ :=
  (rmsSq wave).map fun q : ℚ => min 1 (Real.sqrt (q : ℝ))

/-- NaN-propagating linear interpolation: a JS `lerp` whose arguments may be
NaN returns NaN. -/
def nanLerp (a b : Option ℝ) (t : ℝ) : Option ℝ :=
  match a, b with
  | some x, some y => some (lerp x y t)
  | _, _ => none

/-- The smoothed audio state of the visualizers: `energy`, `bass`, `mids`,
`highs`, each a JS number (possibly NaN, i.e. `none`). -/
structure AudioState where
  energy : Option ℝ
  bass : Option ℝ
  mids : Option ℝ
  highs : Option ℝ

/-- The audio-state part of `AuroraOrbit2DVisualizer._updateAudioStats`
(aurora2d.js lines 135-169): each field moves toward its instantaneous
target with smoothing factor 0.2. -/
noncomputable def stepAudioState (sr : ℚ) (freq wave : List ℕ) (s : AudioState) : AudioState :=
  { energy := nanLerp s.energy (energyTargetR wave) (1/5)
    bass := nanLerp s.bass (some ((bassTarget sr freq : ℚ) : ℝ)) (1/5)
    mids := nanLerp s.mids (some ((midsTarget sr freq : ℚ) : ℝ)) (1/5)
    highs := nanLerp s.highs (some ((highsTarget sr freq : ℚ) : ℝ)) (1/5) }

/-- One silent frame for `AuroraOrbit2DVisualizer`: an all-zero frequency
frame of `n` bins and an all-128 waveform frame of `m` samples, at the
default 44100 Hz sample rate. -/
noncomputable def silenceStep (n m : ℕ) (s : AudioState) : AudioState :=
  stepAudioState 44100 (List.replicate n 0) (List.replicate m 128) s

/-! ### Logarithmic band map (app.js `makeLogBandMap` lines 245-259,
aurora2d.js `_makeLogBandMap` lines 115-130, aurora.js lines 727-742;
all four copies in the repository share this formula). -/

/-- The band-map entry for band `i`: fractional positions `t0 = i/bandCount`
and `t1 = (i+1)/bandCount` are mapped to frequencies by logarithmic
interpolation `f = fMin * (fMax/fMin)^t` with `fMin = 32` and
`fMax = min(16000, nyquist)`, then to bins by
`b0 = max(0, floor(f0/nyquist * binCount))` and
`b1 = min(binCount - 1, ceil(f1/nyquist * binCount))`, with the final entry
`[b0, max(b0 + 1, b1))`. -/
noncomputable def bandEntry (binCount bandCount : ℕ) (sampleRate : ℝ) (i : ℕ) : ℤ × ℤ :=
  let nyquist : ℝ := sampleRate / 2
  let fMin : ℝ := 32
  let fMax : ℝ := min 16000 nyquist
  let t0 : ℝ := (i : ℝ) / (bandCount : ℝ)
  let t1 : ℝ := ((i : ℝ) + 1) / (bandCount : ℝ)
  let f0 : ℝ := fMin * (fMax / fMin) ^ t0
  let f1 : ℝ := fMin * (fMax / fMin) ^ t1
  let b0 : ℤ := max 0 ⌊f0 / nyquist * (binCount : ℝ)⌋
  let b1 : ℤ := min ((binCount : ℤ) - 1) ⌈f1 / nyquist * (binCount : ℝ)⌉
  (b0, max (b0 + 1) b1)

/-- `makeLogBandMap(binCount, bandCount, sampleRate)`: one entry per band. -/
noncomputable def makeLogBandMap (binCount bandCount : ℕ) (sampleRate : ℝ) : List (ℤ × ℤ) :=
  (List.range bandCount).map (bandEntry binCount bandCount sampleRate)

/-- The rebuild test of `_updateAudioStats` (aurora2d.js line 132) and
`_computeAudioFeatures` (src/unnamed/part_002 line 1644):
`!bandMap || bandMap.length !== bars || bandMap[0][1] > freq.length`.
Note that the shape check reads the end of the FIRST band, `bandMap[0][1]`. -/
def needsRebuild (cache : Option (List (ℤ × ℤ))) (bars len : ℕ) : Bool :=
  match cache with
  | none => true
  | some m => decide (m.length ≠ bars) || decide ((len : ℤ) < (m.getD 0 (0, 0)).2)

/-- The band map actually used by a frame: the cache when the rebuild test
passes, otherwise a freshly built map (aurora2d.js lines 132-134). -/
noncomputable def bandMapStep (sr : ℝ) (cache : Option (List (ℤ × ℤ))) (bars len : ℕ) :
    List (ℤ × ℤ) :=
  if needsRebuild cache bars len then makeLogBandMap len bars sr else cache.getD []

/-! ### Per-bar values (aurora2d.js `_updateAudioStats`, lines 170-179) -/

/-- The low-frequency emphasis `tilt = Math.pow(i / bars, 0.6) * 0.15`
(aurora2d.js line 177). -/
noncomputable def tilt (bars i : ℕ) : ℝ := ((i : ℝ) / (bars : ℝ)) ^ ((3 : ℝ)/5) * (15/100)

/-- Sum of the raw byte values `freq[b]` for `b` in `[b0, b1)` (in-bounds
reads only; callers guard the out-of-bounds case). -/
def bandSum (freq : List ℕ) (e : ℤ × ℤ) : ℚ :=
  ((List.range (e.2 - e.1).toNat).map fun j => (freq.getD (e.1 + j).toNat 0 : ℚ)).sum

/-- The clamped per-bar value `min(1, max(0, avg/255 * (1 - tilt)))` for one
band interval (aurora2d.js lines 172-178).  A JS NaN — from an empty band
(`0/0`) or from reading past the end of `freq` (`undefined`) — is `none`;
a band with `b1 < b0` sums nothing and divides `0` by a negative count,
which clamps to `0`. -/
noncomputable def barVal (freq : List ℕ) (bars i : ℕ) (e : ℤ × ℤ) : Option ℝ :=
  if e.2 < e.1 then some 0
  else if e.2 = e.1 then none
  else if 0 ≤ e.1 ∧ e.2 ≤ (freq.length : ℤ) then
    some (min 1 (max 0 ((bandSum freq e : ℝ) / ((e.2 : ℝ) - (e.1 : ℝ)) / 255 * (1 - tilt bars i))))
  else none

/-- All per-bar values for one frame: bar `i` reads `bandMap[i]`
(aurora2d.js lines 170-179). -/
noncomputable def barValuesOf (freq : List ℕ) (bars : ℕ) (m : List (ℤ × ℤ)) : List (Option ℝ) :=
  (List.range bars).map fun i => barVal freq bars i (m.getD i (0, 0))

/-- Result of one full `_updateAudioStats` call: the band map in use, the
smoothed audio state and the per-bar values. -/
structure Stats2D where
  bandMap : List (ℤ × ℤ)
  audioState : AudioState
  barValues : List (Option ℝ)

/-- `AuroraOrbit2DVisualizer._updateAudioStats` (aurora2d.js lines 131-179):
rebuild the band map if stale, smooth the audio state, compute bar values. -/
noncomputable def updateAudioStats (sr : ℚ) (bars : ℕ) (cache : Option (List (ℤ × ℤ)))
    (st : AudioState) (freq wave : List ℕ) : Stats2D :=
  let m := bandMapStep (sr : ℝ) cache bars freq.length
  { bandMap := m
    audioState := stepAudioState sr freq wave st
    barValues := barValuesOf freq bars m }

/-! ## Theorems -/

/-- Wrapping a nonnegative value with JS `% 1.0` lands in `[0, 1)`. -/
theorem jsMod1_mem (x : ℚ) (hx : 0 ≤ x) : 0 ≤ jsMod1 x ∧ jsMod1 x < 1 := by
  rw [jsMod1, if_pos hx]
  refine ⟨sub_nonneg.mpr (Int.floor_le x), ?_⟩
  have h := Int.lt_floor_add_one x
  linarith

/-- C5: for a constant target and smoothing factor in (0,1), one exponential
smoothing step `value + (target - value) * alpha` strictly shrinks the
distance to the target (no overshoot, monotone convergence). -/
theorem smoothing_no_overshoot (v t a : ℝ) (h0 : 0 < a) (h1 : a < 1) (hne : v ≠ t) :
    |lerp v t a - t| < |v - t| := by
  have he : lerp v t a - t = (v - t) * (1 - a) := by rw [lerp]; ring
  rw [he, abs_mul, abs_of_pos (by linarith : (0:ℝ) < 1 - a)]
  have hv : 0 < |v - t| := abs_pos.mpr (sub_ne_zero.mpr hne)
  nlinarith

/-- C5 witness: the step at `value = 0`, `target = 1`, `alpha = 1/5`. -/
theorem smoothing_no_overshoot_witness :
    (0:ℝ) < 1/5 ∧ (1/5:ℝ) < 1 ∧ (0:ℝ) ≠ 1 ∧ |lerp 0 1 (1/5) - 1| < |(0:ℝ) - 1| :=
  ⟨by norm_num, by norm_num, by norm_num,
    smoothing_no_overshoot 0 1 (1/5) (by norm_num) (by norm_num) (by norm_num)⟩

/-- Closed form of the iterated pulse decay: starting from `max 0 x`, after
frames with nonnegative time deltas `dts` the pulse is
`max 0 (x - 3/2 * Σ dts)`. -/
theorem decaySeq_closed (dts : List ℚ) (hd : ∀ d ∈ dts, 0 ≤ d) (x : ℚ) :
    decaySeq dts (max 0 x) = max 0 (x - 3/2 * dts.sum) := by
  induction dts generalizing x with
  | nil => simp [decaySeq]
  | cons d ds ih =>
      have hd0 : 0 ≤ d := hd d (List.mem_cons_self d ds)
      have hds : ∀ e ∈ ds, 0 ≤ e := fun e he => hd e (List.mem_cons_of_mem d he)
      have hstep : peakPulseDecay d (max 0 x) = max 0 (x - d * (3/2)) := by
        rw [peakPulseDecay]
        rcases le_or_lt 0 x with hx | hx
        · rw [max_eq_right hx]
        · rw [max_eq_left hx.le]
          rw [max_eq_left (by linarith : x - d * (3/2) ≤ 0),
            max_eq_left (by linarith : 0 - d * (3/2) ≤ 0)]
      have : decaySeq (d :: ds) (max 0 x) = decaySeq ds (peakPulseDecay d (max 0 x)) := rfl
      rw [this, hstep, ih hds]
      congr 1
      simp [List.sum_cons]
      ring

/-- C6: once the peak pulse is set to 1.0 and only the decay step
`pulse = max(0, pulse - dt * 1.5)` runs (nonnegative time deltas), the pulse
equals `max 0 (1 - 1.5 * Σ dt)`, never goes negative, is monotonically
non-increasing frame to frame, and is exactly 0 once the accumulated time
reaches `1 / 1.5 = 2/3` seconds. -/
theorem peak_pulse_decay (dts : List ℚ) (hd : ∀ d ∈ dts, 0 ≤ d) :
    decaySeq dts 1 = max 0 (1 - 3/2 * dts.sum) ∧
    0 ≤ decaySeq dts 1 ∧
    (∀ d, 0 ≤ d → decaySeq (dts ++ [d]) 1 ≤ decaySeq dts 1) ∧
    (2/3 ≤ dts.sum → decaySeq dts 1 = 0) := by
  have hclosed : decaySeq dts 1 = max 0 (1 - 3/2 * dts.sum) := by
    have h := decaySeq_closed dts hd 1
    rw [show (max 0 1 : ℚ) = 1 by norm_num] at h
    exact h
  refine ⟨hclosed, hclosed ▸ le_max_left _ _, ?_, ?_⟩
  · intro d hd0
    have happ : decaySeq (dts ++ [d]) 1 = peakPulseDecay d (decaySeq dts 1) := by
      rw [decaySeq, decaySeq, List.foldl_append]
      rfl
    rw [happ, peakPulseDecay]
    have h0 : 0 ≤ decaySeq dts 1 := hclosed ▸ le_max_left _ _
    have : d * (3/2) ≥ 0 := by linarith
    exact max_le h0 (by linarith)
  · intro hsum
    rw [hclosed]
    exact max_eq_left (by linarith)

/-- C6 witness: deltas `[1/2, 1/3]` accumulate to `5/6 ≥ 2/3` seconds. -/
theorem peak_pulse_decay_witness :
    (∀ d ∈ [(1:ℚ)/2, 1/3], 0 ≤ d) ∧
    (decaySeq [(1:ℚ)/2, 1/3] 1 = max 0 (1 - 3/2 * ([(1:ℚ)/2, 1/3]).sum) ∧
      0 ≤ decaySeq [(1:ℚ)/2, 1/3] 1 ∧
      (∀ d, 0 ≤ d → decaySeq ([(1:ℚ)/2, 1/3] ++ [d]) 1 ≤ decaySeq [(1:ℚ)/2, 1/3] 1) ∧
      (2/3 ≤ ([(1:ℚ)/2, 1/3]).sum → decaySeq [(1:ℚ)/2, 1/3] 1 = 0)) := by
  have hd : ∀ d ∈ [(1:ℚ)/2, 1/3], 0 ≤ d := by
    intro d hdm
    rcases List.mem_cons.mp hdm with h | hdm
    · rw [h]; norm_num
    · rcases List.mem_cons.mp hdm with h | hdm
      · rw [h]; norm_num
      · simp at hdm
  exact ⟨hd, peak_pulse_decay [(1:ℚ)/2, 1/3] hd⟩

/-- C9 counterexample: the `hueShift` accumulator of
`AuroraOrbitVisualizer.update` (src/unnamed/part_002 lines 1707-1708) is an
accumulating hue phase that is NOT wrapped modulo 1: from `0.9` with
`dt = 1` and zero energy it reaches `27/25 ≥ 1`. -/
theorem hueShift_not_wrapped :
    hueShiftStep (9/10) 1 0 = 27/25 ∧ ¬ hueShiftStep (9/10) 1 0 < 1 := by
  constructor <;> norm_num [hueShiftStep]

/-- An arbitrarily long run of spark-seed updates with nonnegative time
deltas and highs keeps the seed inside `[0, 1)`. -/
theorem sparkSeedRun_mem (steps : List (ℚ × ℚ)) (seed : ℚ)
    (hseed0 : 0 ≤ seed) (hseed1 : seed < 1)
    (hsteps : ∀ p ∈ steps, 0 ≤ p.1 ∧ 0 ≤ p.2) :
    0 ≤ sparkSeedRun steps seed ∧ sparkSeedRun steps seed < 1 := by
  induction steps generalizing seed with
  | nil => exact ⟨hseed0, hseed1⟩
  | cons p ps ih =>
      have hp := hsteps p (List.mem_cons_self p ps)
      have hps : ∀ q ∈ ps, 0 ≤ q.1 ∧ 0 ≤ q.2 := fun q hq => hsteps q (List.mem_cons_of_mem p hq)
      have hnext : 0 ≤ sparkSeedStep seed p.1 p.2 ∧ sparkSeedStep seed p.1 p.2 < 1 := by
        rw [sparkSeedStep]
        exact jsMod1_mem _ (by nlinarith [hp.1, hp.2, hseed0])
      have hrun : sparkSeedRun (p :: ps) seed = sparkSeedRun ps (sparkSeedStep seed p.1 p.2) := rfl
      rw [hrun]
      exact ih _ hnext.1 hnext.2 hps

/-- C9 (amended): the phase accumulators that ARE advanced through `% 1.0`
— the 2D spark seeds, the 2D `lastHue` and `innerPhase`, and the WebGL
`uHue` — land in `[0, 1)` after every update with nonnegative inputs, and
an arbitrarily long run of spark-seed updates stays in `[0, 1)`;
`part_002`'s `hueShift` is the exception and grows unwrapped. -/
theorem wrapped_phases_bounded (seed dt highs hue energy phase : ℚ)
    (hseed0 : 0 ≤ seed) (hseed1 : seed < 1) (hdt : 0 ≤ dt) (hhighs : 0 ≤ highs)
    (hhue : 0 ≤ hue) (henergy : 0 ≤ energy) (hphase : 0 ≤ phase) :
    (0 ≤ sparkSeedStep seed dt highs ∧ sparkSeedStep seed dt highs < 1) ∧
    (0 ≤ lastHueStep hue energy dt ∧ lastHueStep hue energy dt < 1) ∧
    (0 ≤ innerPhaseStep phase dt highs ∧ innerPhaseStep phase dt highs < 1) ∧
    (0 ≤ uHueStep hue energy dt ∧ uHueStep hue energy dt < 1) ∧
    (∀ steps : List (ℚ × ℚ), (∀ p ∈ steps, 0 ≤ p.1 ∧ 0 ≤ p.2) →
      0 ≤ sparkSeedRun steps seed ∧ sparkSeedRun steps seed < 1) := by
  have h1 : (0:ℚ) ≤ seed + dt * (1/20 + highs * (3/5)) := by positivity
  have h2 : (0:ℚ) ≤ hue + energy * (3/100) * dt := by positivity
  have h3 : (0:ℚ) ≤ phase + dt * (1/5 + highs * (3/10)) := by positivity
  have h4 : (0:ℚ) ≤ hue + energy * (1/20) * dt := by positivity
  exact ⟨jsMod1_mem _ h1, jsMod1_mem _ h2, jsMod1_mem _ h3, jsMod1_mem _ h4,
    fun steps hsteps => sparkSeedRun_mem steps seed hseed0 hseed1 hsteps⟩

/-- C9 witness: a concrete wrapped update from seed `1/2` with `dt = 2`. -/
theorem wrapped_phases_bounded_witness :
    ((0:ℚ) ≤ 1/2 ∧ (1/2:ℚ) < 1 ∧ (0:ℚ) ≤ 2 ∧ (0:ℚ) ≤ 1 ∧ (0:ℚ) ≤ 1/4) ∧
    (0 ≤ sparkSeedStep (1/2) 2 1 ∧ sparkSeedStep (1/2) 2 1 < 1) := by
  refine ⟨by norm_num, ?_⟩
  exact (wrapped_phases_bounded (1/2) 2 1 (1/4) (1/4) (1/4) (by norm_num) (by norm_num)
    (by norm_num) (by norm_num) (by norm_num) (by norm_num) (by norm_num)).1

/-- C10 counterexample: the guard `!presets[level]` is a truthiness test on
a prototype-chain property read, so `"constructor"` — a level that is NOT
one of the defined presets — passes it (the inherited
`Object.prototype.constructor` is truthy) and the call is NOT a no-op: the
quality name takes the level, the settings record is replaced by the
inherited member (all fields `undefined`), the bar/seed arrays are
reallocated empty and the cached band map is cleared. -/
theorem setQuality_constructor_mutates :
    (("constructor") ≠ "high" ∧ ("constructor") ≠ "medium" ∧ ("constructor") ≠ "low") ∧
    (setQuality ("constructor") (fun _ => 0)
        ⟨("high"), some 48, some 26, some 180, [], [], none⟩).quality = "constructor" ∧
    (setQuality ("constructor") (fun _ => 0)
        ⟨("high"), some 48, some 26, some 180, [], [], none⟩).settingsBars = none ∧
    setQuality ("constructor") (fun _ => 0)
        ⟨("high"), some 48, some 26, some 180, [], [], none⟩ ≠
      ⟨("high"), some 48, some 26, some 180, [], [], none⟩ := by
  refine ⟨⟨by decide, by decide, by decide⟩, rfl, rfl, ?_⟩
  intro h
  exact absurd (congrArg Vis2DState.quality h) (by decide)

/-- C10 (amended): `setQuality` with a level that is neither a preset name
nor the name of an `Object.prototype` member reads `undefined`, fails the
truthiness guard and returns before touching anything, leaving the entire
visualizer state unchanged.  (For inherited member names such as
`"constructor"` the guard passes and the state is mutated — see the
counterexample.) -/
theorem setQuality_unknown_noop (level : String) (rnd : ℕ → ℝ) (s : Vis2DState)
    (h1 : level ≠ "high") (h2 : level ≠ "medium") (h3 : level ≠ "low")
    (h4 : level ≠ "constructor") (h5 : level ≠ "hasOwnProperty")
    (h6 : level ≠ "isPrototypeOf") (h7 : level ≠ "propertyIsEnumerable")
    (h8 : level ≠ "toLocaleString") (h9 : level ≠ "toString") (h10 : level ≠ "valueOf")
    (h11 : level ≠ "__proto__") (h12 : level ≠ "__defineGetter__")
    (h13 : level ≠ "__defineSetter__") (h14 : level ≠ "__lookupGetter__")
    (h15 : level ≠ "__lookupSetter__") :
    setQuality level rnd s = s := by
  have hp : presets level = JsLookup.missing := by
    rw [presets, if_neg h1, if_neg h2, if_neg h3,
      if_neg (by simp [h4, h5, h6, h7, h8, h9, h10, h11, h12, h13, h14, h15])]
  unfold setQuality
  rw [hp]

/-- C10 witness: the unknown level `"ultra"` leaves a concrete state alone. -/
theorem setQuality_unknown_noop_witness :
    (("ultra") ≠ "high" ∧ ("ultra") ≠ "medium" ∧ ("ultra") ≠ "low" ∧
      ("ultra") ≠ "constructor" ∧ ("ultra") ≠ "hasOwnProperty" ∧
      ("ultra") ≠ "isPrototypeOf" ∧ ("ultra") ≠ "propertyIsEnumerable" ∧
      ("ultra") ≠ "toLocaleString" ∧ ("ultra") ≠ "toString" ∧ ("ultra") ≠ "valueOf" ∧
      ("ultra") ≠ "__proto__" ∧ ("ultra") ≠ "__defineGetter__" ∧
      ("ultra") ≠ "__defineSetter__" ∧ ("ultra") ≠ "__lookupGetter__" ∧
      ("ultra") ≠ "__lookupSetter__") ∧
    setQuality ("ultra") (fun _ => 0)
        ⟨("high"), some 48, some 26, some 180, [], [], none⟩ =
      ⟨("high"), some 48, some 26, some 180, [], [], none⟩ :=
  ⟨⟨by decide, by decide, by decide, by decide, by decide, by decide, by decide, by decide,
    by decide, by decide, by decide, by decide, by decide, by decide, by decide⟩,
    setQuality_unknown_noop ("ultra") (fun _ => 0)
      ⟨("high"), some 48, some 26, some 180, [], [], none⟩
      (by decide) (by decide) (by decide) (by decide) (by decide) (by decide) (by decide)
      (by decide) (by decide) (by decide) (by decide) (by decide) (by decide) (by decide)
      (by decide)⟩

/-! ### Lemmas on the feature extractor -/

theorem nanLerp_none_right (a : Option ℝ) (t : ℝ) : nanLerp a none t = none := by
  cases a <;> rfl

theorem nanLerp_some (x y t : ℝ) : nanLerp (some x) (some y) t = some (lerp x y t) := rfl

theorem getD_replicate_zero (n i : ℕ) : (List.replicate n (0:ℕ)).getD i 0 = 0 := by
  induction n generalizing i with
  | zero => rfl
  | succ k ih =>
      cases i with
      | zero => rfl
      | succ j => exact ih j

theorem vSum_silence (n : ℕ) (idx : List ℕ) : vSum (List.replicate n 0) idx = 0 := by
  rw [vSum]
  apply List.sum_eq_zero
  intro x hx
  rcases List.mem_map.mp hx with ⟨i, _, rfl⟩
  rw [getD_replicate_zero]
  norm_num

theorem bassTarget_silence (sr : ℚ) (n : ℕ) : bassTarget sr (List.replicate n 0) = 0 := by
  rw [bassTarget]
  split
  · rfl
  · rw [vSum_silence, zero_div]

theorem midsTarget_silence (sr : ℚ) (n : ℕ) : midsTarget sr (List.replicate n 0) = 0 := by
  rw [midsTarget]
  split
  · rfl
  · rw [vSum_silence, zero_div]

theorem highsTarget_silence (sr : ℚ) (n : ℕ) : highsTarget sr (List.replicate n 0) = 0 := by
  rw [highsTarget]
  split
  · rfl
  · rw [vSum_silence, zero_div]

theorem rmsSq_silence (m : ℕ) (hm : 0 < m) : rmsSq (List.replicate m 128) = some 0 := by
  have hne : List.replicate m (128:ℕ) ≠ [] := by
    simp only [ne_eq, List.replicate_eq_nil_iff]
    omega
  rw [rmsSq, if_neg hne]
  have hmap : (List.replicate m (128:ℕ)).map (fun w : ℕ => (((w:ℚ) - 128) / 128) ^ 2) =
      List.replicate m 0 := by
    rw [List.map_replicate]
    norm_num
  rw [hmap, List.sum_replicate]
  simp

theorem energyTargetR_silence (m : ℕ) (hm : 0 < m) :
    energyTargetR (List.replicate m 128) = some 0 := by
  rw [energyTargetR, rmsSq_silence m hm]
  simp

/-- One silent frame multiplies every (non-NaN) smoothed field by `4/5`. -/
theorem silenceStep_some (n m : ℕ) (hm : 0 < m) (e b mi h : ℝ) :
    silenceStep n m ⟨some e, some b, some mi, some h⟩ =
      ⟨some ((4/5) * e), some ((4/5) * b), some ((4/5) * mi), some ((4/5) * h)⟩ := by
  rw [silenceStep, stepAudioState]
  rw [energyTargetR_silence m hm, bassTarget_silence, midsTarget_silence, highsTarget_silence]
  simp only [nanLerp_some, Rat.cast_zero, lerp, AudioState.mk.injEq, Option.some_inj]
  refine ⟨by ring, by ring, by ring, by ring⟩

/-- C1 counterexample: the claim quantifies over every byte-range frame, but
with an empty waveform frame the unguarded division `rms / wave.length` is
`0/0` (NaN) and the smoothed energy output is NaN, not a value in `[0,1]`:
starting from the all-zero state with `freq = [0]` the energy becomes `none`. -/
theorem energy_nan_on_empty_wave :
    (stepAudioState 44100 [0] [] ⟨some 0, some 0, some 0, some 0⟩).energy = none := rfl

/-- C4 counterexample: with empty frequency and waveform arrays the RMS mean
is NOT guarded (`Math.sqrt(rms / wave.length)` is `sqrt(0/0)`), so the
smoothed energy — one of the smoothed outputs — becomes NaN. -/
theorem empty_input_energy_nan :
    (stepAudioState 44100 [] [] ⟨some 0, some 0, some 0, some 0⟩).energy = none := rfl

/-- C4 (amended): on empty input arrays the bass/mids/highs means are
guarded by their count checks and are treated as 0, so those smoothed fields
take a plain lerp step toward 0; the RMS division is unguarded, so the
smoothed energy becomes NaN (`none`). -/
theorem empty_input_step (sr : ℚ) (st : AudioState) :
    bassTarget sr [] = 0 ∧ midsTarget sr [] = 0 ∧ highsTarget sr [] = 0 ∧
    (stepAudioState sr [] [] st).energy = none ∧
    (stepAudioState sr [] [] st).bass = nanLerp st.bass (some 0) (1/5) ∧
    (stepAudioState sr [] [] st).mids = nanLerp st.mids (some 0) (1/5) ∧
    (stepAudioState sr [] [] st).highs = nanLerp st.highs (some 0) (1/5) := by
  have hb : bassTarget sr [] = 0 := rfl
  have hmi : midsTarget sr [] = 0 := rfl
  have hh : highsTarget sr [] = 0 := rfl
  refine ⟨hb, hmi, hh, ?_, ?_, ?_, ?_⟩
  · rw [stepAudioState]
    exact nanLerp_none_right _ _
  · rw [stepAudioState]
    simp only [hb, Rat.cast_zero]
  · rw [stepAudioState]
    simp only [hmi, Rat.cast_zero]
  · rw [stepAudioState]
    simp only [hh, Rat.cast_zero]

/-- C7: feeding silence (all-zero frequency frame, all-128 waveform frame)
from any in-range state decays every smoothed field geometrically: after `k`
frames each field is exactly `(4/5)^k` times its initial value — hence never
NaN and never negative at any frame — and after 100 frames it is below
`10⁻⁹`, i.e. zero within smoothing epsilon. -/
theorem silence_settles_to_zero (n m : ℕ) (hm : 0 < m) (e b mi h : ℝ)
    (he0 : 0 ≤ e) (he1 : e ≤ 1) (hb0 : 0 ≤ b) (hb1 : b ≤ 1)
    (hm0 : 0 ≤ mi) (hm1 : mi ≤ 1) (hh0 : 0 ≤ h) (hh1 : h ≤ 1) :
    (∀ k : ℕ, (silenceStep n m)^[k] ⟨some e, some b, some mi, some h⟩ =
        ⟨some ((4/5)^k * e), some ((4/5)^k * b), some ((4/5)^k * mi), some ((4/5)^k * h)⟩ ∧
      0 ≤ (4/5:ℝ)^k * e ∧ 0 ≤ (4/5:ℝ)^k * b ∧ 0 ≤ (4/5:ℝ)^k * mi ∧ 0 ≤ (4/5:ℝ)^k * h) ∧
    (4/5:ℝ)^100 * e ≤ (4/5:ℝ)^100 ∧ (4/5:ℝ)^100 < 1/10^9 := by
  have hiter : ∀ k : ℕ, (silenceStep n m)^[k] ⟨some e, some b, some mi, some h⟩ =
      ⟨some ((4/5)^k * e), some ((4/5)^k * b), some ((4/5)^k * mi), some ((4/5)^k * h)⟩ := by
    intro k
    induction k with
    | zero => simp
    | succ j ih =>
        rw [Function.iterate_succ_apply', ih, silenceStep_some n m hm]
        simp only [AudioState.mk.injEq, Option.some_inj]
        refine ⟨by ring, by ring, by ring, by ring⟩
  refine ⟨fun k => ⟨hiter k, by positivity, by positivity, by positivity, by positivity⟩, ?_, ?_⟩
  · exact mul_le_of_le_one_right (by positivity) he1
  · norm_num

/-- C7 witness: 2 frequency bins, 4 waveform samples, all fields starting at 1. -/
theorem silence_settles_to_zero_witness :
    ((0:ℕ) < 4 ∧ (0:ℝ) ≤ 1 ∧ (1:ℝ) ≤ 1) ∧
    ((∀ k : ℕ, (silenceStep 2 4)^[k] ⟨some 1, some 1, some 1, some 1⟩ =
        ⟨some ((4/5)^k * 1), some ((4/5)^k * 1), some ((4/5)^k * 1), some ((4/5)^k * 1)⟩ ∧
      0 ≤ (4/5:ℝ)^k * 1 ∧ 0 ≤ (4/5:ℝ)^k * 1 ∧ 0 ≤ (4/5:ℝ)^k * 1 ∧ 0 ≤ (4/5:ℝ)^k * 1) ∧
    (4/5:ℝ)^100 * 1 ≤ (4/5:ℝ)^100 ∧ (4/5:ℝ)^100 < 1/10^9) :=
  ⟨⟨by norm_num, by norm_num, by norm_num⟩,
    silence_settles_to_zero 2 4 (by norm_num) 1 1 1 1 (by norm_num) (by norm_num) (by norm_num)
      (by norm_num) (by norm_num) (by norm_num) (by norm_num) (by norm_num)⟩

/-! ### Lemmas on the logarithmic band map -/

/-- Unfolded form of `bandEntry`. -/
theorem bandEntry_def (n k : ℕ) (sr : ℝ) (i : ℕ) :
    bandEntry n k sr i =
      (max 0 ⌊32 * (min 16000 (sr/2) / 32) ^ ((i:ℝ) / (k:ℝ)) / (sr/2) * (n:ℝ)⌋,
       max (max 0 ⌊32 * (min 16000 (sr/2) / 32) ^ ((i:ℝ) / (k:ℝ)) / (sr/2) * (n:ℝ)⌋ + 1)
         (min ((n:ℤ) - 1)
           ⌈32 * (min 16000 (sr/2) / 32) ^ (((i:ℝ) + 1) / (k:ℝ)) / (sr/2) * (n:ℝ)⌉)) := rfl

/-- Every band is at least one bin wide: `binEnd ≥ binStart + 1`. -/
theorem bandEntry_width (n k : ℕ) (sr : ℝ) (i : ℕ) :
    (bandEntry n k sr i).1 + 1 ≤ (bandEntry n k sr i).2 := by
  rw [bandEntry_def]
  exact le_max_left _ _

/-- Band starts are clamped below at 0. -/
theorem bandEntry_start_nonneg (n k : ℕ) (sr : ℝ) (i : ℕ) : 0 ≤ (bandEntry n k sr i).1 := by
  rw [bandEntry_def]
  exact le_max_left 0 _

/-- For sample rates above 64 Hz (nyquist above `fMin = 32`), every band end
stays within the bin count. -/
theorem bandEntry_end_le (n k : ℕ) (sr : ℝ) (i : ℕ) (hn : 0 < n) (hik : i < k)
    (hsr : 64 < sr) : (bandEntry n k sr i).2 ≤ (n:ℤ) := by
  have hk : 0 < k := lt_of_le_of_lt (Nat.zero_le i) hik
  have hny : (32:ℝ) < sr/2 := by linarith
  have hny0 : (0:ℝ) < sr/2 := by linarith
  have hr : 1 < min 16000 (sr/2) / 32 := by
    rw [lt_div_iff (by norm_num : (0:ℝ) < 32)]
    have := lt_min (by norm_num : (32:ℝ) < 16000) hny
    linarith
  have ht0 : (i:ℝ) / (k:ℝ) < 1 := by
    rw [div_lt_one (by exact_mod_cast hk)]
    exact_mod_cast hik
  have hpow : (min 16000 (sr/2) / 32) ^ ((i:ℝ)/(k:ℝ)) < min 16000 (sr/2) / 32 := by
    have h := Real.rpow_lt_rpow_of_exponent_lt hr ht0
    rwa [Real.rpow_one] at h
  have hf0 : 32 * (min 16000 (sr/2) / 32) ^ ((i:ℝ)/(k:ℝ)) < sr/2 := by
    have h32 : (32:ℝ) * (min 16000 (sr/2) / 32) = min 16000 (sr/2) := by
      field_simp
    have hmul := mul_lt_mul_of_pos_left hpow (show (0:ℝ) < 32 by norm_num)
    rw [h32] at hmul
    have := min_le_right (16000:ℝ) (sr/2)
    linarith
  have hn0 : (0:ℝ) < (n:ℝ) := by exact_mod_cast hn
  have hx : 32 * (min 16000 (sr/2) / 32) ^ ((i:ℝ)/(k:ℝ)) / (sr/2) * (n:ℝ) < (n:ℝ) := by
    have h1 : 32 * (min 16000 (sr/2) / 32) ^ ((i:ℝ)/(k:ℝ)) / (sr/2) < 1 :=
      (div_lt_one hny0).mpr hf0
    nlinarith
  have hfl : ⌊32 * (min 16000 (sr/2) / 32) ^ ((i:ℝ)/(k:ℝ)) / (sr/2) * (n:ℝ)⌋ < (n:ℤ) :=
    Int.floor_lt.mpr (by push_cast; exact hx)
  have hn1 : (1:ℤ) ≤ (n:ℤ) := by exact_mod_cast hn
  rw [bandEntry_def]
  apply max_le
  · have : max 0 ⌊32 * (min 16000 (sr/2) / 32) ^ ((i:ℝ)/(k:ℝ)) / (sr/2) * (n:ℝ)⌋ ≤ (n:ℤ) - 1 :=
      max_le (by omega) (by omega)
    omega
  · exact le_trans (min_le_left _ _) (by omega)

/-- Band starts are monotonically non-decreasing in the band index (for
sample rates above 64 Hz, where the frequency ratio is above 1). -/
theorem bandEntry_start_mono (n k : ℕ) (sr : ℝ) (i j : ℕ) (hij : i ≤ j) (hsr : 64 < sr) :
    (bandEntry n k sr i).1 ≤ (bandEntry n k sr j).1 := by
  rcases Nat.eq_zero_or_pos k with hk | hk
  · subst hk
    rw [bandEntry_def, bandEntry_def]
    norm_num
  · have hr : 1 ≤ min 16000 (sr/2) / 32 := by
      rw [le_div_iff (by norm_num : (0:ℝ) < 32)]
      have := lt_min (by norm_num : (32:ℝ) < 16000) (show (32:ℝ) < sr/2 by linarith)
      linarith
    have hk0 : (0:ℝ) < (k:ℝ) := by exact_mod_cast hk
    have ht : (i:ℝ)/(k:ℝ) ≤ (j:ℝ)/(k:ℝ) :=
      (div_le_div_right hk0).mpr (by exact_mod_cast hij)
    have hpow := Real.rpow_le_rpow_of_exponent_le hr ht
    have hny0 : (0:ℝ) < sr/2 := by linarith
    have hx : 32 * (min 16000 (sr/2) / 32) ^ ((i:ℝ)/(k:ℝ)) / (sr/2) * (n:ℝ) ≤
        32 * (min 16000 (sr/2) / 32) ^ ((j:ℝ)/(k:ℝ)) / (sr/2) * (n:ℝ) := by
      gcongr
    rw [bandEntry_def, bandEntry_def]
    exact max_le_max le_rfl (Int.floor_le_floor hx)

theorem makeLogBandMap_length (n k : ℕ) (sr : ℝ) : (makeLogBandMap n k sr).length = k := by
  rw [makeLogBandMap]
  simp

theorem makeLogBandMap_getD (n k : ℕ) (sr : ℝ) (i : ℕ) (hik : i < k) :
    (makeLogBandMap n k sr).getD i (0,0) = bandEntry n k sr i := by
  rw [makeLogBandMap]
  rw [List.getD_eq_getElem?_getD, List.getElem?_map, List.getElem?_range hik]
  rfl

theorem makeLogBandMap_mem (n k : ℕ) (sr : ℝ) (e : ℤ × ℤ) (he : e ∈ makeLogBandMap n k sr) :
    ∃ i, i < k ∧ e = bandEntry n k sr i := by
  rw [makeLogBandMap] at he
  rcases List.mem_map.mp he with ⟨i, hi, rfl⟩
  exact ⟨i, List.mem_range.mp hi, rfl⟩

/-- C2 (amended): for `binCount > 0`, `bandCount > 0` and sample rates above
64 Hz (so that `fMin = 32` is below nyquist — the regime of every real audio
context), every band-map entry has width at least 1 and end at most
`binCount`, and the band starts are monotonically non-decreasing.  (For
sample rates at or below 64 Hz the end bound fails; see the counterexample.) -/
theorem band_map_shape (n k : ℕ) (sr : ℝ) (hn : 0 < n) (hk : 0 < k) (hsr : 64 < sr) :
    (∀ e ∈ makeLogBandMap n k sr, e.1 + 1 ≤ e.2 ∧ 0 ≤ e.1 ∧ e.2 ≤ (n:ℤ)) ∧
    (∀ i j : ℕ, i ≤ j → j < k →
      ((makeLogBandMap n k sr).getD i (0,0)).1 ≤ ((makeLogBandMap n k sr).getD j (0,0)).1) := by
  constructor
  · intro e he
    rcases makeLogBandMap_mem n k sr e he with ⟨i, hik, rfl⟩
    exact ⟨bandEntry_width n k sr i, bandEntry_start_nonneg n k sr i,
      bandEntry_end_le n k sr i hn hik hsr⟩
  · intro i j hij hjk
    rw [makeLogBandMap_getD n k sr i (lt_of_le_of_lt hij hjk), makeLogBandMap_getD n k sr j hjk]
    exact bandEntry_start_mono n k sr i j hij hsr

/-- C2 witness: the default configuration `binCount = 1024`, `bandCount = 48`,
`sampleRate = 44100`. -/
theorem band_map_shape_witness :
    ((0:ℕ) < 1024 ∧ (0:ℕ) < 48 ∧ (64:ℝ) < 44100) ∧
    ((∀ e ∈ makeLogBandMap 1024 48 44100, e.1 + 1 ≤ e.2 ∧ 0 ≤ e.1 ∧ e.2 ≤ (1024:ℤ)) ∧
    (∀ i j : ℕ, i ≤ j → j < 48 →
      ((makeLogBandMap 1024 48 44100).getD i (0,0)).1 ≤
        ((makeLogBandMap 1024 48 44100).getD j (0,0)).1)) := by
  refine ⟨⟨by norm_num, by norm_num, by norm_num⟩, ?_⟩
  have h := band_map_shape 1024 48 44100 (by norm_num) (by norm_num) (by norm_num)
  exact_mod_cast h

/-- C2 counterexample: the claim quantifies over every positive sample rate,
but at `binCount = 1`, `bandCount = 1`, `sampleRate = 2` the nyquist (1 Hz)
sits below `fMin = 32`, the start `floor(32/1 * 1) = 32` escapes upward (only
clamped below), and the entry end is `33 > binCount`. -/
theorem floor_eval (x : ℝ) (z : ℤ) (h1 : (z:ℝ) ≤ x) (h2 : x < z + 1) : ⌊x⌋ = z :=
  Int.floor_eq_iff.mpr ⟨h1, h2⟩

theorem ceil_eval (x : ℝ) (z : ℤ) (h1 : (z:ℝ) - 1 < x) (h2 : x ≤ z) : ⌈x⌉ = z :=
  Int.ceil_eq_iff.mpr ⟨h1, h2⟩

theorem band_map_end_overflow :
    (makeLogBandMap 1 1 2).getD 0 (0,0) = (32, 33) ∧
    ¬ ((makeLogBandMap 1 1 2).getD 0 (0,0)).2 ≤ ((1:ℕ):ℤ) := by
  have h : (makeLogBandMap 1 1 2).getD 0 (0,0) = bandEntry 1 1 2 0 :=
    makeLogBandMap_getD 1 1 2 0 (by norm_num)
  have he : bandEntry 1 1 2 0 = (32, 33) := by
    rw [bandEntry_def]
    have hmin : min (16000:ℝ) (2/2) = 1 := by norm_num
    have ht0 : ((0:ℕ):ℝ) / ((1:ℕ):ℝ) = 0 := by norm_num
    have ht1 : (((0:ℕ):ℝ) + 1) / ((1:ℕ):ℝ) = 1 := by norm_num
    rw [hmin, ht0, ht1, Real.rpow_zero, Real.rpow_one]
    rw [floor_eval (32 * 1 / (2/2) * ((1:ℕ):ℝ)) 32 (by norm_num) (by norm_num)]
    rw [ceil_eval (32 * (1/32) / (2/2) * ((1:ℕ):ℝ)) 1 (by norm_num) (by norm_num)]
    norm_num
  rw [h, he]
  norm_num

/-! ### The per-frame outputs stay in [0,1] (claim C1) -/

theorem bassIdx_lt (sr : ℚ) (len : ℕ) : ∀ i ∈ bassIdx sr len, i < len := fun i hi =>
  List.mem_range.mp (List.mem_filter.mp hi).1

theorem midsIdx_lt (sr : ℚ) (len : ℕ) : ∀ i ∈ midsIdx sr len, i < len := fun i hi =>
  List.mem_range.mp (List.mem_filter.mp hi).1

theorem highsIdx_lt (sr : ℚ) (len : ℕ) : ∀ i ∈ highsIdx sr len, i < len := fun i hi =>
  List.mem_range.mp (List.mem_filter.mp hi).1

theorem vSum_nonneg (freq idx : List ℕ) : 0 ≤ vSum freq idx := by
  apply List.sum_nonneg
  intro x hx
  rcases List.mem_map.mp hx with ⟨i, _, rfl⟩
  positivity

theorem vSum_le_length (freq idx : List ℕ) (hfb : ∀ b ∈ freq, b ≤ 255)
    (hidx : ∀ i ∈ idx, i < freq.length) : vSum freq idx ≤ idx.length := by
  rw [vSum]
  have h := List.sum_le_card_nsmul (idx.map fun i => (freq.getD i 0 : ℚ) / 255) 1 ?_
  · simpa [nsmul_eq_mul] using h
  · intro x hx
    rcases List.mem_map.mp hx with ⟨i, hi, rfl⟩
    have hlt := hidx i hi
    have hmem : freq.getD i 0 ∈ freq := by
      rw [List.getD_eq_getElem?_getD, List.getElem?_eq_getElem hlt]
      exact List.getElem_mem hlt
    have hb : (freq.getD i 0 : ℚ) ≤ 255 := by exact_mod_cast hfb _ hmem
    rw [div_le_one (by norm_num : (0:ℚ) < 255)]
    exact hb

theorem guardedMean_mem (freq idx : List ℕ) (hfb : ∀ b ∈ freq, b ≤ 255)
    (hidx : ∀ i ∈ idx, i < freq.length) :
    0 ≤ (if idx.length = 0 then (0:ℚ) else vSum freq idx / idx.length) ∧
    (if idx.length = 0 then (0:ℚ) else vSum freq idx / idx.length) ≤ 1 := by
  split
  · norm_num
  · rename_i hne
    have hpos : (0:ℚ) < idx.length := by
      have := Nat.pos_of_ne_zero hne
      exact_mod_cast this
    constructor
    · exact div_nonneg (vSum_nonneg _ _) hpos.le
    · rw [div_le_one hpos]
      exact vSum_le_length freq idx hfb hidx

theorem bassTarget_mem (sr : ℚ) (freq : List ℕ) (hfb : ∀ b ∈ freq, b ≤ 255) :
    0 ≤ bassTarget sr freq ∧ bassTarget sr freq ≤ 1 := by
  rw [bassTarget]
  exact guardedMean_mem freq _ hfb (bassIdx_lt sr freq.length)

theorem midsTarget_mem (sr : ℚ) (freq : List ℕ) (hfb : ∀ b ∈ freq, b ≤ 255) :
    0 ≤ midsTarget sr freq ∧ midsTarget sr freq ≤ 1 := by
  rw [midsTarget]
  exact guardedMean_mem freq _ hfb (midsIdx_lt sr freq.length)

theorem highsTarget_mem (sr : ℚ) (freq : List ℕ) (hfb : ∀ b ∈ freq, b ≤ 255) :
    0 ≤ highsTarget sr freq ∧ highsTarget sr freq ≤ 1 := by
  rw [highsTarget]
  exact guardedMean_mem freq _ hfb (highsIdx_lt sr freq.length)

theorem energyTargetR_mem (wave : List ℕ) (hw : wave ≠ []) :
    ∃ r, energyTargetR wave = some r ∧ 0 ≤ r ∧ r ≤ 1 := by
  rw [energyTargetR, rmsSq, if_neg hw]
  exact ⟨_, rfl, le_min zero_le_one (Real.sqrt_nonneg _), min_le_left _ _⟩

theorem lerp_mem (a b t : ℝ) (ha0 : 0 ≤ a) (ha1 : a ≤ 1) (hb0 : 0 ≤ b) (hb1 : b ≤ 1)
    (ht0 : 0 ≤ t) (ht1 : t ≤ 1) : 0 ≤ lerp a b t ∧ lerp a b t ≤ 1 := by
  rw [lerp]
  constructor <;> nlinarith

theorem barVal_mem (freq : List ℕ) (bars i : ℕ) (e : ℤ × ℤ)
    (hwd : e.1 + 1 ≤ e.2) (h0 : 0 ≤ e.1) (hle : e.2 ≤ (freq.length:ℤ)) :
    ∃ x, barVal freq bars i e = some x ∧ 0 ≤ x ∧ x ≤ 1 := by
  rw [barVal, if_neg (by omega), if_neg (by omega), if_pos ⟨h0, hle⟩]
  exact ⟨_, rfl, le_min zero_le_one (le_max_left 0 _), min_le_left _ _⟩

theorem bandMapStep_none (sr : ℝ) (bars len : ℕ) :
    bandMapStep sr none bars len = makeLogBandMap len bars sr := rfl

/-- C1 (amended): for every NONEMPTY frequency and waveform frame of bytes
in [0,255], any 44100-class sample rate (above 64 Hz) and any previous
`AudioState` with fields in [0,1], every output of `_updateAudioStats` with
a freshly built band map — the smoothed `energy`, `bass`, `mids`, `highs`
and all 48 clamped per-bar values — is a real number (never NaN) in `[0,1]`,
and the instantaneous energy target `min(1, rms)` is in `[0,1]`.  (For an
EMPTY waveform frame the claim fails: see the counterexample.) -/
theorem feature_extraction_bounded (sr : ℚ) (freq wave : List ℕ) (st : AudioState)
    (e0 b0 m0 h0 : ℝ)
    (hsr : 64 < sr) (hf : freq ≠ []) (hw : wave ≠ [])
    (hfb : ∀ b ∈ freq, b ≤ 255) (hwb : ∀ b ∈ wave, b ≤ 255)
    (hste : st.energy = some e0) (he0 : 0 ≤ e0) (he1 : e0 ≤ 1)
    (hstb : st.bass = some b0) (hb0 : 0 ≤ b0) (hb1 : b0 ≤ 1)
    (hstm : st.mids = some m0) (hm0 : 0 ≤ m0) (hm1 : m0 ≤ 1)
    (hsth : st.highs = some h0) (hh0 : 0 ≤ h0) (hh1 : h0 ≤ 1) :
    (∃ x, (updateAudioStats sr 48 none st freq wave).audioState.energy = some x ∧
      0 ≤ x ∧ x ≤ 1) ∧
    (∃ x, (updateAudioStats sr 48 none st freq wave).audioState.bass = some x ∧
      0 ≤ x ∧ x ≤ 1) ∧
    (∃ x, (updateAudioStats sr 48 none st freq wave).audioState.mids = some x ∧
      0 ≤ x ∧ x ≤ 1) ∧
    (∃ x, (updateAudioStats sr 48 none st freq wave).audioState.highs = some x ∧
      0 ≤ x ∧ x ≤ 1) ∧
    (∀ v ∈ (updateAudioStats sr 48 none st freq wave).barValues,
      ∃ x, v = some x ∧ 0 ≤ x ∧ x ≤ 1) ∧
    (∃ r, energyTargetR wave = some r ∧ 0 ≤ r ∧ r ≤ 1) := by
  have hfifth0 : (0:ℝ) ≤ 1/5 := by norm_num
  have hfifth1 : (1/5:ℝ) ≤ 1 := by norm_num
  have haud : (updateAudioStats sr 48 none st freq wave).audioState =
      stepAudioState sr freq wave st := rfl
  obtain ⟨r, hr, hr0, hr1⟩ := energyTargetR_mem wave hw
  refine ⟨?_, ?_, ?_, ?_, ?_, ⟨r, hr, hr0, hr1⟩⟩
  · refine ⟨lerp e0 r (1/5), ?_, lerp_mem e0 r (1/5) he0 he1 hr0 hr1 hfifth0 hfifth1⟩
    rw [haud, stepAudioState, hste, hr, nanLerp_some]
  · have hb := bassTarget_mem sr freq hfb
    have hbc0 : (0:ℝ) ≤ ((bassTarget sr freq : ℚ) : ℝ) := by exact_mod_cast hb.1
    have hbc1 : ((bassTarget sr freq : ℚ) : ℝ) ≤ 1 := by exact_mod_cast hb.2
    refine ⟨lerp b0 ((bassTarget sr freq : ℚ) : ℝ) (1/5), ?_,
      lerp_mem _ _ (1/5) hb0 hb1 hbc0 hbc1 hfifth0 hfifth1⟩
    rw [haud, stepAudioState, hstb, nanLerp_some]
  · have hb := midsTarget_mem sr freq hfb
    have hbc0 : (0:ℝ) ≤ ((midsTarget sr freq : ℚ) : ℝ) := by exact_mod_cast hb.1
    have hbc1 : ((midsTarget sr freq : ℚ) : ℝ) ≤ 1 := by exact_mod_cast hb.2
    refine ⟨lerp m0 ((midsTarget sr freq : ℚ) : ℝ) (1/5), ?_,
      lerp_mem _ _ (1/5) hm0 hm1 hbc0 hbc1 hfifth0 hfifth1⟩
    rw [haud, stepAudioState, hstm, nanLerp_some]
  · have hb := highsTarget_mem sr freq hfb
    have hbc0 : (0:ℝ) ≤ ((highsTarget sr freq : ℚ) : ℝ) := by exact_mod_cast hb.1
    have hbc1 : ((highsTarget sr freq : ℚ) : ℝ) ≤ 1 := by exact_mod_cast hb.2
    refine ⟨lerp h0 ((highsTarget sr freq : ℚ) : ℝ) (1/5), ?_,
      lerp_mem _ _ (1/5) hh0 hh1 hbc0 hbc1 hfifth0 hfifth1⟩
    rw [haud, stepAudioState, hsth, nanLerp_some]
  · have hbv : (updateAudioStats sr 48 none st freq wave).barValues =
        barValuesOf freq 48 (makeLogBandMap freq.length 48 (sr:ℝ)) := rfl
    rw [hbv]
    intro v hv
    rw [barValuesOf] at hv
    rcases List.mem_map.mp hv with ⟨i, hi, rfl⟩
    have hik : i < 48 := List.mem_range.mp hi
    rw [makeLogBandMap_getD freq.length 48 (sr:ℝ) i hik]
    have hlen : 0 < freq.length := List.length_pos.mpr hf
    have hsrR : (64:ℝ) < (sr:ℝ) := by exact_mod_cast hsr
    exact barVal_mem freq 48 i _ (bandEntry_width _ _ _ _) (bandEntry_start_nonneg _ _ _ _)
      (bandEntry_end_le _ _ _ _ hlen hik hsrR)

/-- C1 witness: one 100-valued frequency bin, one 200-valued waveform
sample, all smoothed fields starting at `1/2`. -/
theorem feature_extraction_bounded_witness :
    ((64:ℚ) < 44100 ∧ ([100] : List ℕ) ≠ [] ∧ ([200] : List ℕ) ≠ [] ∧
      (∀ b ∈ ([100] : List ℕ), b ≤ 255) ∧ (∀ b ∈ ([200] : List ℕ), b ≤ 255) ∧
      (0:ℝ) ≤ 1/2 ∧ (1/2:ℝ) ≤ 1) ∧
    ((∃ x, (updateAudioStats 44100 48 none
        ⟨some (1/2), some (1/2), some (1/2), some (1/2)⟩ [100] [200]).audioState.energy =
          some x ∧ 0 ≤ x ∧ x ≤ 1) ∧
    (∃ x, (updateAudioStats 44100 48 none
        ⟨some (1/2), some (1/2), some (1/2), some (1/2)⟩ [100] [200]).audioState.bass =
          some x ∧ 0 ≤ x ∧ x ≤ 1) ∧
    (∃ x, (updateAudioStats 44100 48 none
        ⟨some (1/2), some (1/2), some (1/2), some (1/2)⟩ [100] [200]).audioState.mids =
          some x ∧ 0 ≤ x ∧ x ≤ 1) ∧
    (∃ x, (updateAudioStats 44100 48 none
        ⟨some (1/2), some (1/2), some (1/2), some (1/2)⟩ [100] [200]).audioState.highs =
          some x ∧ 0 ≤ x ∧ x ≤ 1) ∧
    (∀ v ∈ (updateAudioStats 44100 48 none
        ⟨some (1/2), some (1/2), some (1/2), some (1/2)⟩ [100] [200]).barValues,
      ∃ x, v = some x ∧ 0 ≤ x ∧ x ≤ 1) ∧
    (∃ r, energyTargetR [200] = some r ∧ 0 ≤ r ∧ r ≤ 1)) :=
  ⟨⟨by norm_num, by simp, by simp, by decide, by decide, by norm_num, by norm_num⟩,
    feature_extraction_bounded 44100 [100] [200]
      ⟨some (1/2), some (1/2), some (1/2), some (1/2)⟩ (1/2) (1/2) (1/2) (1/2)
      (by norm_num) (by simp) (by simp) (by decide) (by decide)
      rfl (by norm_num) (by norm_num) rfl (by norm_num) (by norm_num)
      rfl (by norm_num) (by norm_num) rfl (by norm_num) (by norm_num)⟩

/-! ### Numeric bounds on the rpow terms of the 44100 Hz configuration -/

theorem rpow48_le (x b : ℝ) (hx : 0 ≤ x) (hb : 0 ≤ b) (h : x ≤ b ^ (48:ℕ)) :
    x ^ ((1:ℝ)/48) ≤ b := by
  have h2 : ((b:ℝ) ^ (48:ℕ)) ^ ((1:ℝ)/48) = b := by
    rw [← Real.rpow_natCast b 48, ← Real.rpow_mul hb,
      show ((48:ℕ):ℝ) * (1/48) = 1 by norm_num, Real.rpow_one]
  have h1 : x ^ ((1:ℝ)/48) ≤ ((b:ℝ) ^ (48:ℕ)) ^ ((1:ℝ)/48) :=
    Real.rpow_le_rpow hx h (by norm_num)
  rwa [h2] at h1

theorem le_rpow48 (x b : ℝ) (hb : 0 ≤ b) (h : b ^ (48:ℕ) ≤ x) : b ≤ x ^ ((1:ℝ)/48) := by
  have h2 : ((b:ℝ) ^ (48:ℕ)) ^ ((1:ℝ)/48) = b := by
    rw [← Real.rpow_natCast b 48, ← Real.rpow_mul hb,
      show ((48:ℕ):ℝ) * (1/48) = 1 by norm_num, Real.rpow_one]
  have h1 : ((b:ℝ) ^ (48:ℕ)) ^ ((1:ℝ)/48) ≤ x ^ ((1:ℝ)/48) :=
    Real.rpow_le_rpow (by positivity) h (by norm_num)
  rwa [h2] at h1

theorem p148_ge1 : (1:ℝ) ≤ (500:ℝ) ^ ((1:ℝ)/48) :=
  le_rpow48 500 1 (by norm_num) (by norm_num)

theorem p148_ge : (101/100:ℝ) ≤ (500:ℝ) ^ ((1:ℝ)/48) :=
  le_rpow48 500 (101/100) (by norm_num) (by norm_num)

theorem p148_le : (500:ℝ) ^ ((1:ℝ)/48) ≤ 6/5 :=
  rpow48_le 500 (6/5) (by norm_num) (by norm_num) (by norm_num)

theorem p4748_le : (500:ℝ) ^ ((47:ℝ)/48) ≤ 460 := by
  have hsplit : (500:ℝ) ^ ((47:ℝ)/48) = ((500:ℝ) ^ (47:ℕ)) ^ ((1:ℝ)/48) := by
    rw [← Real.rpow_natCast 500 47, ← Real.rpow_mul (by norm_num : (0:ℝ) ≤ 500)]
    congr 1
    push_cast
    ring
  rw [hsplit]
  exact rpow48_le _ 460 (by positivity) (by norm_num) (by norm_num)

/-- Entry 0 of the band map for `binCount = 1024, bandCount = 48,
sampleRate = 44100`: bins `[1, 2)` — the start is `floor(32/22050 * 1024) = 1`,
not 0. -/
theorem entry_1024_0 : bandEntry 1024 48 44100 0 = (1, 2) := by
  rw [bandEntry_def]
  rw [show min (16000:ℝ) (44100/2) / 32 = 500 by norm_num]
  rw [show ((0:ℕ):ℝ) / ((48:ℕ):ℝ) = 0 by norm_num]
  rw [show (((0:ℕ):ℝ) + 1) / ((48:ℕ):ℝ) = (1:ℝ)/48 by norm_num]
  rw [Real.rpow_zero]
  rw [floor_eval (32 * 1 / (44100/2) * ((1024:ℕ):ℝ)) 1 (by push_cast; norm_num)
    (by push_cast; norm_num)]
  rw [ceil_eval (32 * (500:ℝ) ^ ((1:ℝ)/48) / (44100/2) * ((1024:ℕ):ℝ)) 2
    (by push_cast; nlinarith [p148_ge1]) (by push_cast; nlinarith [p148_le])]
  norm_num [Prod.ext_iff]

/-- Entry 47 of the same band map ends at bin 744 and starts no later than
bin 683 (the true start is 652), so its width is at least 61 bins. -/
theorem entry_1024_47 : ∃ s : ℤ, bandEntry 1024 48 44100 47 = (s, 744) ∧ 0 ≤ s ∧ s ≤ 683 := by
  rw [bandEntry_def]
  rw [show min (16000:ℝ) (44100/2) / 32 = 500 by norm_num]
  rw [show ((47:ℕ):ℝ) / ((48:ℕ):ℝ) = (47:ℝ)/48 by norm_num]
  rw [show (((47:ℕ):ℝ) + 1) / ((48:ℕ):ℝ) = (1:ℝ) by norm_num]
  rw [Real.rpow_one]
  rw [ceil_eval (32 * (500:ℝ) / (44100/2) * ((1024:ℕ):ℝ)) 744 (by push_cast; norm_num)
    (by push_cast; norm_num)]
  have hfl : ⌊32 * (500:ℝ) ^ ((47:ℝ)/48) / (44100/2) * ((1024:ℕ):ℝ)⌋ < 684 :=
    Int.floor_lt.mpr (by push_cast; nlinarith [p4748_le])
  refine ⟨max 0 ⌊32 * (500:ℝ) ^ ((47:ℝ)/48) / (44100/2) * ((1024:ℕ):ℝ)⌋, ?_,
    le_max_left _ _, max_le (by norm_num) (by omega)⟩
  rw [Prod.ext_iff]
  refine ⟨rfl, ?_⟩
  have hmin : min (((1024:ℕ):ℤ) - 1) 744 = 744 := by norm_num
  rw [hmin]
  have hb : max 0 ⌊32 * (500:ℝ) ^ ((47:ℝ)/48) / (44100/2) * ((1024:ℕ):ℝ)⌋ ≤ 683 :=
    max_le (by norm_num) (by omega)
  exact max_eq_right (by omega)

/-- Entry 0 of the band map for `binCount = 2048, bandCount = 48,
sampleRate = 44100`: bins `[2, 4)`. -/
theorem entry_2048_0 : bandEntry 2048 48 44100 0 = (2, 4) := by
  rw [bandEntry_def]
  rw [show min (16000:ℝ) (44100/2) / 32 = 500 by norm_num]
  rw [show ((0:ℕ):ℝ) / ((48:ℕ):ℝ) = 0 by norm_num]
  rw [show (((0:ℕ):ℝ) + 1) / ((48:ℕ):ℝ) = (1:ℝ)/48 by norm_num]
  rw [Real.rpow_zero]
  rw [floor_eval (32 * 1 / (44100/2) * ((2048:ℕ):ℝ)) 2 (by push_cast; norm_num)
    (by push_cast; norm_num)]
  rw [ceil_eval (32 * (500:ℝ) ^ ((1:ℝ)/48) / (44100/2) * ((2048:ℕ):ℝ)) 4
    (by push_cast; nlinarith [p148_ge]) (by push_cast; nlinarith [p148_le])]
  norm_num [Prod.ext_iff]

/-- Entry 47 of the 2048-bin band map ends at bin 1487 or later. -/
theorem entry_2048_47_end : 1487 ≤ (bandEntry 2048 48 44100 47).2 := by
  rw [bandEntry_def]
  rw [show min (16000:ℝ) (44100/2) / 32 = 500 by norm_num]
  rw [show (((47:ℕ):ℝ) + 1) / ((48:ℕ):ℝ) = (1:ℝ) by norm_num]
  rw [Real.rpow_one]
  rw [ceil_eval (32 * (500:ℝ) / (44100/2) * ((2048:ℕ):ℝ)) 1487 (by push_cast; norm_num)
    (by push_cast; norm_num)]
  refine le_trans ?_ (le_max_right _ _)
  rw [show min (((2048:ℕ):ℤ) - 1) 1487 = 1487 by norm_num]

/-- C3 counterexample: in the `binCount = 1024, bandCount = 48,
sampleRate = 44100` scenario, band 0 does NOT start at bin 0: its start is
`max(0, floor(32/22050 * 1024)) = 1`. -/
theorem band0_start_not_zero :
    ((makeLogBandMap 1024 48 44100).getD 0 (0,0)).1 = 1 ∧
    ¬ ((makeLogBandMap 1024 48 44100).getD 0 (0,0)).1 = 0 := by
  rw [makeLogBandMap_getD 1024 48 44100 0 (by norm_num), entry_1024_0]
  norm_num

/-- C3 (amended): for `binCount = 1024, bandCount = 48, sampleRate = 44100`,
band 0 is `[1, 2)` (starting at bin 1, not 0); band 47 ends at bin 744,
within `binCount - 1 = 1023`; and the low band 0 (1 bin wide) is strictly
narrower than the high band 47 (at least 61 bins wide), confirming
logarithmic spacing. -/
theorem scenario_1024_48_band_map :
    (makeLogBandMap 1024 48 44100).getD 0 (0,0) = (1, 2) ∧
    ((makeLogBandMap 1024 48 44100).getD 47 (0,0)).2 = 744 ∧
    ((makeLogBandMap 1024 48 44100).getD 47 (0,0)).2 ≤ 1023 ∧
    ((makeLogBandMap 1024 48 44100).getD 0 (0,0)).2 -
        ((makeLogBandMap 1024 48 44100).getD 0 (0,0)).1 <
      ((makeLogBandMap 1024 48 44100).getD 47 (0,0)).2 -
        ((makeLogBandMap 1024 48 44100).getD 47 (0,0)).1 := by
  obtain ⟨s, hs, hs0, hs683⟩ := entry_1024_47
  rw [makeLogBandMap_getD 1024 48 44100 0 (by norm_num),
    makeLogBandMap_getD 1024 48 44100 47 (by norm_num), entry_1024_0, hs]
  refine ⟨rfl, rfl, by norm_num, ?_⟩
  simp only
  omega

/-- C8 counterexample: the staleness check reads the FIRST band's end
(`bandMap[0][1]`), not the last.  A cached map built for 2048 bins has first
band `[2, 4)`, so against a 16-bin frame the check passes (`4 ≤ 16`), the
stale map is kept as the map in use, and its band 47 ends at bin 1487 —
far beyond the frame's length. -/
theorem stale_map_used_out_of_range :
    needsRebuild (some (makeLogBandMap 2048 48 44100)) 48 16 = false ∧
    bandMapStep 44100 (some (makeLogBandMap 2048 48 44100)) 48 16 =
      makeLogBandMap 2048 48 44100 ∧
    16 < ((makeLogBandMap 2048 48 44100).getD 47 (0,0)).2 := by
  have hrb : needsRebuild (some (makeLogBandMap 2048 48 44100)) 48 16 = false := by
    rw [needsRebuild]
    rw [makeLogBandMap_length 2048 48 44100,
      makeLogBandMap_getD 2048 48 44100 0 (by norm_num), entry_2048_0]
    norm_num
  refine ⟨hrb, ?_, ?_⟩
  · rw [bandMapStep, hrb]
    simp
  · rw [makeLogBandMap_getD 2048 48 44100 47 (by norm_num)]
    have := entry_2048_47_end
    omega

/-- C8 (amended): the map is invalidated and rebuilt exactly when there is
no cached map, the band count changed, or the FIRST band's end exceeds the
frame's bin count; whenever a rebuild fires, the freshly built map's
intervals all end within the frame (sample rate above 64 Hz, nonempty
frame).  The check does not inspect the last band, so a stale cache can
still be used out of range — see the counterexample. -/
theorem band_map_rebuild_policy (cache : Option (List (ℤ × ℤ))) (bars len : ℕ) (sr : ℝ)
    (hsr : 64 < sr) (hlen : 0 < len) :
    (needsRebuild cache bars len = true ↔
      cache = none ∨ ∃ m, cache = some m ∧
        (m.length ≠ bars ∨ (len:ℤ) < (m.getD 0 (0,0)).2)) ∧
    (needsRebuild cache bars len = true →
      ∀ e ∈ bandMapStep sr cache bars len, e.2 ≤ (len:ℤ)) := by
  constructor
  · cases cache with
    | none => simp [needsRebuild]
    | some m => simp [needsRebuild]
  · intro hrb e he
    rw [bandMapStep, if_pos hrb] at he
    rcases makeLogBandMap_mem len bars sr e he with ⟨i, hik, rfl⟩
    exact bandEntry_end_le len bars sr i hlen hik hsr

/-- C8 witness: a first frame (no cache) of 1024 bins at 44100 Hz. -/
theorem band_map_rebuild_policy_witness :
    ((64:ℝ) < 44100 ∧ (0:ℕ) < 1024) ∧
    ((needsRebuild none 48 1024 = true ↔
      (none : Option (List (ℤ × ℤ))) = none ∨ ∃ m, (none : Option (List (ℤ × ℤ))) = some m ∧
        (m.length ≠ 48 ∨ ((1024:ℕ):ℤ) < (m.getD 0 (0,0)).2)) ∧
    (needsRebuild none 48 1024 = true →
      ∀ e ∈ bandMapStep 44100 none 48 1024, e.2 ≤ ((1024:ℕ):ℤ))) :=
  ⟨⟨by norm_num, by norm_num⟩,
    band_map_rebuild_policy none 48 1024 44100 (by norm_num) (by norm_num)⟩

end LocalVisualizer
